import Mathlib

/-!
Shallow embedding of the tu-planner sources (src/main.rs and src/config.rs):
the locale value, the two-variant TISS source configuration with its derived
link and locale, the SPK event filter over parsed calendars, and the
calendar HTTP response constructor.
-/

namespace TuPlanner

/-- The locale of the calendar (config.rs, enum Locale). -/
inductive Locale where
  | de
  | en
deriving DecidableEq

/-- Display impl for Locale (config.rs lines 25-32): the 2-letter code. -/
def Locale.toString : Locale → String
  | .de => "de"
  | .en => "en"

/-- FromStr impl for Locale (config.rs lines 34-44); the anyhow error is
modelled as its message string. -/
def Locale.fromStr (s : String) : Except String Locale :=
  if s = "de" then .ok .de
  else if s = "en" then .ok .en
  else .error ("Could not parse " ++ s ++ " into a Locale")

/-- Model of url::Url restricted to what the source uses: a base part
(scheme, host, path) and the ordered list of decoded query pairs.
query_pairs() iterates the pairs; query_pairs_mut().append_pair appends
one pair at the end. -/
structure Url where
  base : String
  query : List (String × String)
deriving DecidableEq

/-- Model of uuid::Uuid by its canonical hyphenated string form, which is
what token.to_string() produces. -/
structure Uuid where
  toString : String
deriving DecidableEq

/-- config.rs enum TissConfig: explicit components or a pre-built link. -/
inductive TissConfig where
  | Components (endpoint : Url) (locale : Locale) (token : Uuid)
  | Link (url : Url)
deriving DecidableEq

/-- default_endpoint (config.rs lines 52-56): the fixed TISS personal
calendar endpoint, parsed as a URL with no query parameters. -/
def default_endpoint : Url :=
  { base := "https://tiss.tuwien.ac.at/events/rest/calendar/personal", query := [] }

/-- Model of deserializing the Components variant with respect to the serde
default attribute on its endpoint field (config.rs line 64): an omitted
endpoint is replaced by default_endpoint. -/
def mkComponents (endpoint : Option Url) (locale : Locale) (token : Uuid) : TissConfig :=
  .Components (endpoint.getD default_endpoint) locale token

/-- TissConfig::link (config.rs lines 76-87): a Link is returned unchanged;
for Components the locale pair and then the token pair are appended to the
endpoint's query. -/
def TissConfig.link : TissConfig → Url
  | .Link l => l
  | .Components endpoint locale token =>
      { endpoint with
          query := endpoint.query ++ [("locale", locale.toString), ("token", token.toString)] }

/-- TissConfig::locale (config.rs lines 89-100). In the Link branch the
source takes field .0 of the found query pair, which is the KEY of the
pair, and parses that as a Locale; this is embedded faithfully below by
parsing p.1 (the first projection, the key). -/
def TissConfig.locale : TissConfig → Except String Locale
  | .Link link =>
      match link.query.find? (fun p => p.1 == "locale") with
      | none => .error "Could not find locale query parameter in tiss token link"
      | some p => Locale.fromStr p.1
  | .Components _ locale _ => .ok locale

/-- The word-character class of the regex crate, modelled on ASCII:
alphanumerics and underscore. -/
def isWordChar (c : Char) : Bool := c.isAlphanum || c = '_'

/-- Whether the window at the head of the character list matches the
pattern of SPK_REGEX (main.rs line 27): a non-word character, then the
literal characters S P K, then a non-word character. -/
def spkAt : List Char → Bool
  | a :: c1 :: c2 :: c3 :: b :: _ =>
      c1 == 'S' && c2 == 'P' && c3 == 'K' && !isWordChar a && !isWordChar b
  | _ => false

/-- SPK_REGEX.is_match (main.rs lines 27 and 51): some window of the text
matches the pattern. -/
def spkMatch : List Char → Bool
  | [] => false
  | c :: rest => spkAt (c :: rest) || spkMatch rest

/-- Spec-side description of a match, worded as the spec words it: the text
decomposes around an occurrence of SPK that has an actual non-word
character immediately before it and immediately after it. -/
def spkSpec (s : List Char) : Prop :=
  ∃ pre a b post, s = pre ++ a :: 'S' :: 'P' :: 'K' :: b :: post ∧
    isWordChar a = false ∧ isWordChar b = false

/-- icalendar Event restricted to the one property the filter reads:
get_description(), an optional free-text field. -/
structure Event where
  description : Option String
deriving DecidableEq

/-- icalendar CalendarComponent: Events versus every other component kind
(timezones, todos, venues, ...), which the filter treats alike. -/
inductive CalendarComponent where
  | event (e : Event)
  | other (data : String)
deriving DecidableEq

/-- icalendar Calendar: the ordered sequence of top-level components. -/
structure Calendar where
  components : List CalendarComponent
deriving DecidableEq

/-- The retain closure of main.rs lines 47-58: an Event with a description
is kept exactly when SPK_REGEX does not match the description; an Event
without a description and every non-Event component are kept. -/
def retainComponent : CalendarComponent → Bool
  | .event e =>
      match e.description with
      | some description => !spkMatch description.data
      | none => true
  | .other _ => true

/-- calendar.components.retain(...) (main.rs lines 47-58). -/
def filterCalendar (cal : Calendar) : Calendar :=
  { components := cal.components.filter retainComponent }

/-- actix DispositionType, restricted to the variant used. -/
inductive DispositionType where
  | Attachment
deriving DecidableEq

/-- actix DispositionParam, restricted to the variant used. -/
inductive DispositionParam where
  | Filename (name : String)
deriving DecidableEq

/-- actix header::ContentDisposition. -/
structure ContentDisposition where
  disposition : DispositionType
  parameters : List DispositionParam
deriving DecidableEq

/-- actix QualityItem: an item with a quality in thousandths; 1000 is the
maximal quality produced by QualityItem::max. -/
structure QualityItem where
  item : String
  quality : Nat
deriving DecidableEq

/-- QualityItem::max: the item at maximal quality. -/
def QualityItem.max (item : String) : QualityItem := { item := item, quality := 1000 }

/-- Into language tag for Locale (config.rs lines 46-50): the 2-letter code
parsed as a language tag, which round-trips to the same string. -/
def Locale.languageTag (l : Locale) : String := l.toString

/-- The observable parts of the actix HttpResponse the handler builds. -/
structure HttpResponse where
  status : Nat
  contentType : String
  contentDisposition : ContentDisposition
  contentLanguage : List QualityItem
  body : String
deriving DecidableEq

/-- calendar_response (main.rs lines 29-39). The third-party serializer
calendar.to_string() is abstracted as the serialized text argument, so the
body is that text byte for byte. -/
def calendar_response (calendarText : String) (locale : Locale) : HttpResponse :=
  { status := 200,
    contentType := "text/calendar",
    contentDisposition := { disposition := .Attachment, parameters := [.Filename "personal.ics"] },
    contentLanguage := [QualityItem.max locale.languageTag],
    body := calendarText }

/-- The example document of the spec: three events described
SPK Lecture, backSPKroom and Workshop. -/
def exampleDoc : Calendar :=
  { components :=
      [ .event { description := some "SPK Lecture" },
        .event { description := some "backSPKroom" },
        .event { description := some "Workshop" } ] }

/-- A window match is exactly a decomposition of the head of the list. -/
theorem spkAt_eq_true_iff (s : List Char) :
    spkAt s = true ↔ ∃ a b post, s = a :: 'S' :: 'P' :: 'K' :: b :: post ∧
      isWordChar a = false ∧ isWordChar b = false := by
  match s with
  | [] => simp [spkAt]
  | [a] => simp [spkAt]
  | [a, b] => simp [spkAt]
  | [a, b, c] => simp [spkAt]
  | [a, b, c, d] => simp [spkAt]
  | a :: c1 :: c2 :: c3 :: b :: rest =>
    simp only [spkAt, Bool.and_eq_true, beq_iff_eq, Bool.not_eq_true', List.cons.injEq]
    constructor
    · rintro ⟨⟨⟨⟨h1, h2⟩, h3⟩, ha⟩, hb⟩
      exact ⟨a, b, rest, ⟨rfl, h1, h2, h3, rfl, rfl⟩, ha, hb⟩
    · rintro ⟨a0, b0, post, ⟨ha0, h1, h2, h3, hb0, hpost⟩, ha, hb⟩
      subst ha0 h1 h2 h3 hb0
      exact ⟨⟨⟨⟨rfl, rfl⟩, rfl⟩, ha⟩, hb⟩

/-- SPK_REGEX matches a text exactly when the text contains SPK with an
actual non-word character immediately before and after. -/
theorem spkMatch_eq_true_iff (s : List Char) : spkMatch s = true ↔ spkSpec s := by
  induction s with
  | nil =>
    simp only [spkMatch, spkSpec, Bool.false_eq_true, false_iff]
    rintro ⟨pre, a, b, post, heq, -, -⟩
    exact absurd heq (by simp)
  | cons c rest ih =>
    simp only [spkMatch, Bool.or_eq_true, ih, spkAt_eq_true_iff]
    constructor
    · rintro (⟨a, b, post, heq, ha, hb⟩ | ⟨pre, a, b, post, heq, ha, hb⟩)
      · exact ⟨[], a, b, post, heq, ha, hb⟩
      · exact ⟨c :: pre, a, b, post, by rw [List.cons_append, heq], ha, hb⟩
    · rintro ⟨pre, a, b, post, heq, ha, hb⟩
      match pre with
      | [] => exact Or.inl ⟨a, b, post, heq, ha, hb⟩
      | c0 :: pre0 =>
        rw [List.cons_append, List.cons.injEq] at heq
        exact Or.inr ⟨pre0, a, b, post, heq.2, ha, hb⟩

/-- Claim C1 counterexample: on the spec's example document the filter
removes nothing at all; in particular the event described SPK Lecture is
retained, contradicting the claim that filtering removes it. -/
theorem c1_counterexample :
    filterCalendar exampleDoc = exampleDoc ∧
    CalendarComponent.event { description := some "SPK Lecture" } ∈
      (filterCalendar exampleDoc).components := by
  decide

/-- Claim C1 (amended): filtering removes exactly those events whose
description contains SPK with an actual non-word character immediately
before and immediately after; on the example document with events
described SPK Lecture, backSPKroom and Workshop nothing is removed, since
no character precedes the SPK of the first description. -/
theorem c1_filter_removes_exactly_spk :
    (∀ (cal : Calendar) (c : CalendarComponent),
        c ∈ (filterCalendar cal).components ↔
          c ∈ cal.components ∧
            ¬ ∃ d : String, c = .event { description := some d } ∧ spkSpec d.data) ∧
    filterCalendar exampleDoc = exampleDoc := by
  constructor
  · intro cal c
    rw [filterCalendar, List.mem_filter]
    refine and_congr_right fun _ => ?_
    match c with
    | .other s => simp [retainComponent]
    | .event { description := none } => simp [retainComponent]
    | .event { description := some d0 } =>
      simp only [retainComponent, Bool.not_eq_true', CalendarComponent.event.injEq,
        Event.mk.injEq, Option.some.injEq]
      constructor
      · rintro hfalse ⟨d, hd, hspec⟩
        rw [← spkMatch_eq_true_iff] at hspec
        subst hd
        rw [hfalse] at hspec
        exact Bool.false_ne_true hspec
      · intro hn
        rcases h : spkMatch d0.data with - | -
        · rfl
        · exact absurd ⟨d0, rfl, (spkMatch_eq_true_iff d0.data).mp h⟩ hn
  · decide

/-- Claim C2, the failing input evaluated: TissConfig::locale on a Link
whose URL carries the query parameter locale=en does not return en; the
source parses the key of the found pair instead of its value, so the call
fails with the unrecognized-locale error naming the literal key. -/
theorem c2_link_locale_parses_key :
    TissConfig.locale (.Link { base := "https://example.com/cal", query := [("locale", "en")] }) =
      .error "Could not parse locale into a Locale" := rfl

/-- Claim C3: link returns the stored URL unchanged for a Link; for
Components it keeps the endpoint's base and appends exactly two query
pairs after the endpoint's own, locale first and token second. -/
theorem c3_link_resolution :
    (∀ u : Url, TissConfig.link (.Link u) = u) ∧
    (∀ (e : Url) (l : Locale) (t : Uuid),
        (TissConfig.link (.Components e l t)).base = e.base ∧
        (TissConfig.link (.Components e l t)).query =
          e.query ++ [("locale", l.toString), ("token", t.toString)]) :=
  ⟨fun _ => rfl, fun _ _ _ => ⟨rfl, rfl⟩⟩

/-- Claim C4: on the Components variant, locale resolution returns exactly
the stored locale and never an error. -/
theorem c4_components_locale (e : Url) (l : Locale) (t : Uuid) :
    TissConfig.locale (.Components e l t) = .ok l := rfl

/-- Claim C5: the filter keeps retained components in their original
relative order (the result is a sublist of the input), never removes a
non-Event component, and always retains an Event whose description is
absent or empty. -/
theorem c5_filter_invariants (cal : Calendar) :
    List.Sublist (filterCalendar cal).components cal.components ∧
    (∀ s : String, CalendarComponent.other s ∈ cal.components →
        CalendarComponent.other s ∈ (filterCalendar cal).components) ∧
    (∀ e : Event, e.description = none ∨ e.description = some "" →
        CalendarComponent.event e ∈ cal.components →
        CalendarComponent.event e ∈ (filterCalendar cal).components) := by
  refine ⟨List.filter_sublist _, ?_, ?_⟩
  · intro s hmem
    exact List.mem_filter.mpr ⟨hmem, rfl⟩
  · rintro e (hd | hd) hmem <;>
      exact List.mem_filter.mpr ⟨hmem, by simp [retainComponent, hd, spkMatch]⟩

/-- Claim C5 witness: on a concrete document, a timezone component and a
description-free event both survive filtering. -/
theorem c5_witness :
    CalendarComponent.other "VTIMEZONE" ∈
      (filterCalendar { components := [CalendarComponent.other "VTIMEZONE",
        CalendarComponent.event { description := none }] }).components ∧
    CalendarComponent.event { description := none } ∈
      (filterCalendar { components := [CalendarComponent.other "VTIMEZONE",
        CalendarComponent.event { description := none }] }).components :=
  ⟨(c5_filter_invariants _).2.1 "VTIMEZONE" (by decide),
   (c5_filter_invariants _).2.2 { description := none } (Or.inl rfl) (by decide)⟩

/-- Claim C6: the filter is idempotent, and it is a no-op on a document
none of whose described events match the pattern. -/
theorem c6_filter_idempotent (cal : Calendar) :
    filterCalendar (filterCalendar cal) = filterCalendar cal ∧
    ((∀ (e : Event) (d : String), CalendarComponent.event e ∈ cal.components →
        e.description = some d → spkMatch d.data = false) →
      filterCalendar cal = cal) := by
  constructor
  · exact congrArg Calendar.mk
      (List.filter_eq_self.mpr fun c hc => (List.mem_filter.mp hc).2)
  · intro h
    refine congrArg Calendar.mk (List.filter_eq_self.mpr ?_)
    intro c hc
    match c with
    | .other s => rfl
    | .event { description := none } => rfl
    | .event { description := some d } =>
      have hm := h { description := some d } d hc rfl
      simp [retainComponent, hm]

/-- Claim C6 witness: on a concrete single-timezone document the filter is
a no-op. -/
theorem c6_witness :
    filterCalendar { components := [CalendarComponent.other "VTIMEZONE"] } =
      { components := [CalendarComponent.other "VTIMEZONE"] } :=
  (c6_filter_idempotent _).2 (by intro e d hmem hd; simp at hmem)

/-- Claim C7: the calendar response has status 200, content type
text/calendar, an attachment disposition with the fixed literal filename
personal.ics, a content-language holding the locale's code as the sole
maximal-quality value, and a body equal to the serialized text. -/
theorem c7_calendar_response (text : String) (l : Locale) :
    (calendar_response text l).status = 200 ∧
    (calendar_response text l).contentType = "text/calendar" ∧
    (calendar_response text l).contentDisposition =
      { disposition := .Attachment, parameters := [.Filename "personal.ics"] } ∧
    (calendar_response text l).contentLanguage = [{ item := l.toString, quality := 1000 }] ∧
    (calendar_response text l).body = text :=
  ⟨rfl, rfl, rfl, rfl, rfl⟩

/-- Claim C8: a locale formats then parses back to itself, and parsing a
string succeeds exactly when it is de or en. -/
theorem c8_locale_roundtrip :
    (∀ l : Locale, Locale.fromStr l.toString = .ok l) ∧
    (∀ s : String, (∃ l, Locale.fromStr s = .ok l) ↔ s = "de" ∨ s = "en") := by
  constructor
  · intro l
    cases l <;> rfl
  · intro s
    constructor
    · rintro ⟨l, hl⟩
      by_cases h1 : s = "de"
      · exact Or.inl h1
      · by_cases h2 : s = "en"
        · exact Or.inr h2
        · simp [Locale.fromStr, h1, h2] at hl
    · rintro (rfl | rfl)
      · exact ⟨.de, rfl⟩
      · exact ⟨.en, rfl⟩

/-- Claim C9: when the endpoint field is omitted from a Components value,
the endpoint defaults to exactly the fixed TISS personal calendar URL. -/
theorem c9_default_endpoint (l : Locale) (t : Uuid) :
    mkComponents none l t = .Components default_endpoint l t ∧
    default_endpoint =
      { base := "https://tiss.tuwien.ac.at/events/rest/calendar/personal", query := [] } :=
  ⟨rfl, rfl⟩

/-- Claim C10 counterexample: a description that starts with SPK is not
always retained; when a second, internal occurrence of SPK appears with
characters on both sides, the event is removed. -/
theorem c10_counterexample :
    ("SPK a SPK a".data = 'S' :: 'P' :: 'K' :: [' ', 'a', ' ', 'S', 'P', 'K', ' ', 'a']) ∧
    filterCalendar
        { components := [CalendarComponent.event { description := some "SPK a SPK a" }] } =
      { components := [] } := by
  constructor
  · rfl
  · decide

/-- Claim C10 (amended): a match needs an actual non-word character on both
sides of SPK, so an occurrence at the very start or very end of the text
never matches; an event whose description's every occurrence of SPK lies
at the start or the end (for example a description that is exactly SPK) is
retained in every calendar document. -/
theorem c10_boundary_spk_retained (cal : Calendar) (e : Event) (d : String)
    (hd : e.description = some d)
    (hocc : ∀ pre post, d.data = pre ++ 'S' :: 'P' :: 'K' :: post → pre = [] ∨ post = [])
    (hmem : CalendarComponent.event e ∈ cal.components) :
    CalendarComponent.event e ∈ (filterCalendar cal).components := by
  refine List.mem_filter.mpr ⟨hmem, ?_⟩
  have hm : spkMatch d.data = false := by
    cases h : spkMatch d.data
    · rfl
    · exfalso
      obtain ⟨pre, a, b, post, heq, -, -⟩ := (spkMatch_eq_true_iff d.data).mp h
      have h2 : d.data = (pre ++ [a]) ++ 'S' :: 'P' :: 'K' :: (b :: post) := by
        rw [heq]
        simp
      rcases hocc (pre ++ [a]) (b :: post) h2 with h3 | h3
      · exact absurd h3 (by simp)
      · exact absurd h3 (by simp)
  simp [retainComponent, hd, hm]

/-- Claim C10 witness: an event whose description is exactly SPK survives
filtering in a concrete document. -/
theorem c10_witness :
    CalendarComponent.event { description := some "SPK" } ∈
      (filterCalendar
        { components := [CalendarComponent.event { description := some "SPK" }] }).components := by
  refine c10_boundary_spk_retained _ _ "SPK" rfl ?_ (by decide)
  intro pre post h
  rw [show "SPK".data = ['S', 'P', 'K'] from rfl] at h
  have hl := congrArg List.length h
  simp only [List.length_cons, List.length_append, List.length_nil] at hl
  left
  have hz : pre.length = 0 := by omega
  exact List.length_eq_zero.mp hz

end TuPlanner
